import Mathlib

/-!
Verification of the CoLD Case Analyzer analysis-workflow orchestrator.

The development shallowly embeds the data model and operations of the
cold-case-analysis repository: the step dependency graph, the layered
orchestrator, the append-only session state store, the jurisdiction
branch resolver, the theme-classification validation loop, and the
structured-output confidence model.  Definitions are translated from the
repository sources (code snippets quoted in WORKFLOW_CHANGES.md,
IMPLEMENTATION_SUMMARY.md, the refactoring and persistence summaries, and
the architecture documentation); where the deciding code is not present
in the snapshot, a definition is modelled from the specification and its
doc comment says so.
-/

namespace ColdCase

/-- Legal system types detected by the jurisdiction-detection step
(docs/ARCHITECTURE.md, classification models): Civil Law, Common Law,
India, or not a court decision. -/
inductive LegalSystem where
  | civilLaw
  | commonLaw
  | india
  | notACourtDecision
deriving DecidableEq, Repr

/-- The analysis steps of the pipeline (WORKFLOW_CHANGES.md section 4,
tools listed in the repository structure). -/
inductive Step where
  | colSection
  | themeClassification
  | relevantFacts
  | pilProvisions
  | colIssue
  | courtsPosition
  | obiterDicta
  | dissentingOpinions
  | abstract
deriving DecidableEq, Repr

/-- All nine step names, in pipeline order. -/
def allSteps : List Step :=
  [.colSection, .themeClassification, .relevantFacts, .pilProvisions,
   .colIssue, .courtsPosition, .obiterDicta, .dissentingOpinions, .abstract]

/-- Confidence carried by a step result: either an AI confidence value
(a number, see OutputModel below) or the user-edited sentinel attached to
results produced by the human bulk-review surface. -/
inductive Conf where
  | ai (level : ℚ)
  | userEdited
deriving DecidableEq, Repr

/-- A single entry of a step's result list: extracted value, confidence,
reasoning, and the produced-at ordinal (its position in the append-only
list, used for latest-wins semantics). -/
structure StepResult where
  value : String
  confidence : Conf
  reasoning : String
  ordinal : Nat
deriving DecidableEq, Repr

/-- The empty value that `get_latest` yields for a step with no results:
the code reads `state.get(step, [""])[-1]`, `state.get(f"..._confidence",
[0.0])[-1]` and `state.get(f"..._reasoning", [""])[-1]`
(IMPLEMENTATION_SUMMARY.md, UI display flow). -/
def emptyStepResult : StepResult :=
  { value := "", confidence := .ai 0, reasoning := "", ordinal := 0 }

/-- Workflow phase marker of a session
(Input to Persisted, spec state machine adopted by the docs). -/
inductive Phase where
  | input
  | jurisdictionPending
  | jurisdictionConfirmed
  | stepsRunning
  | stepsComplete
  | reviewed
  | persisted
deriving DecidableEq, Repr

/-- The mutable session state: case input, jurisdiction information, the
workflow phase, and one append-only result list per step name.  This is
the typed rendering of the Streamlit state dictionary whose keys are
`{step}`, `{step}_confidence`, `{step}_reasoning`
(IMPLEMENTATION_SUMMARY.md state structure). -/
structure SessionState where
  caseCitation : String
  fullText : String
  legalSystem : Option LegalSystem
  preciseJurisdiction : Option String
  jurisdictionConfirmed : Bool
  phase : Phase
  model : Option String
  results : Step → List StepResult

/-- A fresh session holding only the case input
(state initialisation in utils/state_manager, per the docs). -/
def initialSession (citation text : String) : SessionState :=
  { caseCitation := citation, fullText := text, legalSystem := none,
    preciseJurisdiction := none, jurisdictionConfirmed := false,
    phase := .input, model := none, results := fun _ => [] }

/-- Append a result to one step's list, as the components do with
`state.setdefault(name, []).append(result)` together with the parallel
`_confidence` and `_reasoning` appends (refactoring summary,
execute_analysis_step).  The produced-at ordinal of the new entry is the
length of the list before the append. -/
def append_result (st : SessionState) (s : Step)
    (v : String) (c : Conf) (why : String) : SessionState :=
  { st with
    results := fun t =>
      if t = s then
        st.results s ++ [{ value := v, confidence := c, reasoning := why,
                           ordinal := (st.results s).length }]
      else st.results t }

/-- Latest result of a step, or the empty value when none exists: the
components read `state.get(name, [default])[-1]`
(IMPLEMENTATION_SUMMARY.md UI display flow, refactoring summary). -/
def get_latest (st : SessionState) (s : Step) : StepResult :=
  (st.results s).getLastD emptyStepResult

/-- A result list is well-ordinalled when each entry's produced-at
ordinal is its index; every list built by `append_result` from the empty
list has this shape. -/
def ordinalsOk (l : List StepResult) : Prop :=
  ∀ i : Fin l.length, (l.get i).ordinal = i.1

/-- Prerequisites of each step, for a given confirmed legal system
(WORKFLOW_CHANGES.md section 4: facts, provisions and issue are parallel
after col_section and themes; courts_position depends on facts,
provisions and issue; obiter_dicta and dissenting_opinions are Common
Law only and depend on position; abstract is the final step synthesizing
all previous results, so under Common Law it additionally waits on the
two Common-Law-only steps). -/
def deps (ls : LegalSystem) : Step → List Step
  | .colSection => []
  | .themeClassification => [.colSection]
  | .relevantFacts => [.colSection]
  | .pilProvisions => [.colSection]
  | .colIssue => [.colSection]
  | .courtsPosition => [.relevantFacts, .pilProvisions, .colIssue]
  | .obiterDicta => [.courtsPosition]
  | .dissentingOpinions => [.courtsPosition]
  | .abstract =>
      if ls = .commonLaw then
        [.courtsPosition, .obiterDicta, .dissentingOpinions]
      else [.courtsPosition]

/-- The jurisdiction branch resolver: the concrete step list for a
session, including obiter_dicta and dissenting_opinions exactly when the
legal system is Common Law (WORKFLOW_CHANGES.md "(Common law only)",
agents integration tests with/without Common Law fields). -/
def stepsFor (ls : LegalSystem) : List Step :=
  [.colSection, .themeClassification, .relevantFacts, .pilProvisions,
   .colIssue, .courtsPosition]
  ++ (if ls = .commonLaw then [.obiterDicta, .dissentingOpinions] else [])
  ++ [.abstract]

/-- A step is completed when its result list is non-empty. -/
def completedB (st : SessionState) (s : Step) : Bool :=
  !(st.results s).isEmpty

/-- All declared prerequisites of a step hold at least one result. -/
def depsSatisfied (ls : LegalSystem) (st : SessionState) (s : Step) : Bool :=
  (deps ls s).all (completedB st)

/-- The steps that may be dispatched next: steps of this session's list
that have no result yet but whose prerequisites all have one. -/
def readySteps (ls : LegalSystem) (st : SessionState) : List Step :=
  (stepsFor ls).filter (fun s => !completedB st s && depsSatisfied ls st s)

/-- The list of steps that currently hold at least one result. -/
def completedList (st : SessionState) : List Step :=
  allSteps.filter (completedB st)

/-- Modelled from the spec: dispatching one concurrent layer.  The code
of components/analysis_workflow.py (execute_all_analysis_steps_parallel,
which submits the layer to a thread pool and gathers) is not in the
snapshot.  Each step of the layer runs its extraction; a success appends
its result to the session, a failure appends nothing, and successful
siblings are retained (spec section 7 propagation policy).  `ex` tells
which steps succeed and `out` gives the produced value, confidence and
reasoning. -/
def execute_layer (ex : Step → Bool) (out : Step → String × ℚ × String)
    (layer : List Step) (st : SessionState) : SessionState :=
  layer.foldl
    (fun acc s =>
      if ex s then
        append_result acc s (out s).1 (.ai (out s).2.1) (out s).2.2
      else acc)
    st

/-- Modelled from the spec: the orchestrator loop of
analyze_case_workflow (the generator of tools/case_analyzer.py is not in
the snapshot; WORKFLOW_CHANGES.md and the workflow documentation describe
it).  It repeatedly dispatches the layer of ready steps, waits for all of
them, and advances only when every step of the layer succeeded; on any
failure it halts without dispatching further layers.  Besides the final
state it returns the dispatch trace: for each dispatched layer, the list
of steps already completed when the layer was dispatched, paired with the
layer itself.  `fuel` bounds the number of layers (nine steps suffice). -/
def analyze_case_workflow (ls : LegalSystem) (ex : Step → Bool)
    (out : Step → String × ℚ × String) :
    Nat → SessionState → SessionState × List (List Step × List Step)
  | 0, st => (st, [])
  | Nat.succ n, st =>
    if (readySteps ls st).isEmpty then (st, [])
    else if (readySteps ls st).all ex then
      ((analyze_case_workflow ls ex out n
          (execute_layer ex out (readySteps ls st) st)).1,
       (completedList st, readySteps ls st) ::
         (analyze_case_workflow ls ex out n
            (execute_layer ex out (readySteps ls st) st)).2)
    else
      (execute_layer ex out (readySteps ls st) st,
       [(completedList st, readySteps ls st)])

/-- Modelled from the spec: submitting one user edit from the final
editing phase.  The code of render_final_editing_phase
(components/analysis_workflow.py) is not in the snapshot;
WORKFLOW_CHANGES.md describes the phase and the spec fixes the edit
semantics: the edited value is appended to the step's list as a new
result carrying the user-edited confidence sentinel and an empty
reasoning field, superseding but not replacing the AI result. -/
def submit_user_edit (st : SessionState) (s : Step) (v : String) :
    SessionState :=
  append_result st s v .userEdited ""

/-- One component-driven analysis step (execute_analysis_step of
components/analysis_workflow.py, quoted in the refactoring summary): the
component extracts the parameters from state — the full text, the latest
col_section entry (default empty), the legal system (default Civil law),
the precise jurisdiction and the model (default gpt-5-nano) — calls the
pure tools function on exactly those explicit parameters, and appends the
returned value, confidence and reasoning to the step's lists.  The tools
function receives no session state at all. -/
def execute_analysis_step (st : SessionState) (name : Step)
    (func : String → String → LegalSystem → Option String → String →
      String × ℚ × String) : SessionState :=
  match func st.fullText (get_latest st .colSection).value
      (st.legalSystem.getD .civilLaw) st.preciseJurisdiction
      (st.model.getD "gpt-5-nano") with
  | (v, c, why) => append_result st name v (.ai c) why

/-- The error surfaced when the model's theme labels fail taxonomy
validation twice: a schema validation error, never a coerced value. -/
inductive AnalysisError where
  | schemaValidationError
deriving DecidableEq, Repr

/-- Every returned label belongs to the closed theme taxonomy. -/
def themesValid (taxonomy : List String) (themes : List String) : Bool :=
  themes.all (fun t => taxonomy.contains t)

/-- Modelled from the spec: the body of classify_themes
(tools/themes_classifier.py) is not in the snapshot; the Logfire summary
records only that it tracks retry attempts for invalid themes, and the
spec fixes the policy.  `attempt i` is the theme list the model returns
on its i-th try.  The first output is validated against the taxonomy; an
invalid output triggers exactly one corrective retry, and an invalid
retry surfaces the SchemaValidationError. -/
def classify_themes (taxonomy : List String)
    (attempt : Nat → List String) : Except AnalysisError (List String) :=
  if themesValid taxonomy (attempt 0) then .ok (attempt 0)
  else if themesValid taxonomy (attempt 1) then .ok (attempt 1)
  else .error .schemaValidationError

/-- Legal-system lookup by jurisdiction name in the jurisdictions.csv
mapping, consulted before any LLM analysis to save API costs (snippet
quoted in the coding style guide): the value mapped to the name, if
any. -/
def detect_legal_system_by_jurisdiction
    (mapping : List (String × LegalSystem)) (name : String) :
    Option LegalSystem :=
  (mapping.find? (fun p => p.1 == name)).map (fun p => p.2)

/-- Legal-system-type detection (detect_legal_system_type of
tools/jurisdiction_detector.py; its mapping-first dispatch is the snippet
quoted in the style guide, and the Logfire summary records that the span
tracks whether detection used the mapping or the LLM).  The mapping is
consulted first and a hit is returned directly; only an unmapped name
reaches the LLM oracle.  The Bool records whether the LLM was used. -/
def detect_legal_system_type (mapping : List (String × LegalSystem))
    (llm : String → LegalSystem) (name : String) : LegalSystem × Bool :=
  match detect_legal_system_by_jurisdiction mapping name with
  | some ls => (ls, false)
  | none => (llm name, true)

/-- The structured-output pattern shared by all step models
(IMPLEMENTATION_SUMMARY.md: a primary field, `confidence: float =
Field(ge=0.0, le=1.0)`, and a reasoning string). -/
structure OutputModel where
  primary_field : String
  confidence : ℚ
  reasoning : String
deriving DecidableEq, Repr

/-- The declared range constraint on the confidence field:
`Field(ge=0.0, le=1.0)`. -/
def confidenceInRange (c : ℚ) : Bool :=
  decide (0 ≤ c) && decide (c ≤ 1)

/-- Pydantic validation of an OutputModel: the parsed model is returned
when its confidence satisfies the declared range constraint; otherwise a
ValidationError is raised. -/
def validateOutputModel (m : OutputModel) : Except String OutputModel :=
  if confidenceInRange m.confidence then .ok m else .error "ValidationError"

/-- Claim C5's reading of the confidence field: the values admitted by
the model validation form a three-valued enumeration (low, medium,
high). -/
def confidenceIsThreeValuedEnum : Prop :=
  ∃ lo mid hi : ℚ, ∀ c : ℚ, confidenceInRange c = true →
    c = lo ∨ c = mid ∨ c = hi

/-- State restoration on page initialisation (restore_state_from_storage
of utils/state_manager.py, per the state persistence summary): the state
saved for the session id, or the empty state when none is found or the
database is unavailable. -/
def restore_state_from_storage (stored : Option SessionState) :
    SessionState :=
  stored.getD (initialSession "" "")

/-- Numeric position of each phase in the forward-only lifecycle. -/
def phaseIndex : Phase → Nat
  | .input => 0
  | .jurisdictionPending => 1
  | .jurisdictionConfirmed => 2
  | .stepsRunning => 3
  | .stepsComplete => 4
  | .reviewed => 5
  | .persisted => 6

/-- Modelled from the spec: advance_phase of the session store validates
that the transition moves exactly one phase forward and fails loudly
(returns none) on an illegal transition instead of clamping. -/
def advance_phase (st : SessionState) (p : Phase) : Option SessionState :=
  if phaseIndex p = phaseIndex st.phase + 1 then some { st with phase := p }
  else none

/-- The validated result object of the automated agents workflow
(CompleteCaseAnalysis of openai_agents_poc/models.py, with the component
fields read by the state conversion snippet of the integration
summary). -/
structure AgentsResult where
  case_citation : String
  col_sections : List String
  themes : List String
  facts : String
  provisions : List String
  issue : String
  position : String
  abstractText : String
  obiter : Option String
  dissent : Option String

/-- State conversion of the automated workflow
(convert_agents_result_to_state of components/agents_integration.py; the
integration summary quotes the constructed state and its tests cover the
with- and without-Common-Law-field cases).  CoL sections are joined with
double newlines and themes with commas; each analysis result becomes the
single entry of its step's list; the Common-Law-only lists are filled
only when the legal system is Common Law, and stay empty otherwise. -/
def convert_agents_result_to_state (st : SessionState) (ls : LegalSystem)
    (r : AgentsResult) : SessionState :=
  { st with
    caseCitation := r.case_citation,
    legalSystem := some ls,
    results := fun s =>
      match s with
      | .colSection =>
          [⟨String.intercalate "\n\n" r.col_sections, .ai 1, "", 0⟩]
      | .themeClassification =>
          [⟨String.intercalate ", " r.themes, .ai 1, "", 0⟩]
      | .relevantFacts => [⟨r.facts, .ai 1, "", 0⟩]
      | .pilProvisions =>
          [⟨String.intercalate ", " r.provisions, .ai 1, "", 0⟩]
      | .colIssue => [⟨r.issue, .ai 1, "", 0⟩]
      | .courtsPosition => [⟨r.position, .ai 1, "", 0⟩]
      | .abstract => [⟨r.abstractText, .ai 1, "", 0⟩]
      | .obiterDicta =>
          if ls = .commonLaw then
            match r.obiter with
            | some v => [⟨v, .ai 1, "", 0⟩]
            | none => []
          else []
      | .dissentingOpinions =>
          if ls = .commonLaw then
            match r.dissent with
            | some v => [⟨v, .ai 1, "", 0⟩]
            | none => []
          else [] }

/-- The session lifecycle: every state reachable from case submission
through jurisdiction detection, the confirmation gate, orchestrator runs,
the automated agents workflow, user edits from the final editing phase,
and validated phase advances.  Jurisdiction may be set or overridden
only before the confirmation gate (the one mandatory manual checkpoint);
analysis steps and edits run only on a confirmed session, and edits only
address steps of the resolved step list. -/
inductive Reachable : SessionState → Prop where
  | init (citation text : String) : Reachable (initialSession citation text)
  | detect {st : SessionState} (ls : LegalSystem) (j : String) :
      Reachable st → st.jurisdictionConfirmed = false →
      Reachable { st with legalSystem := some ls,
                          preciseJurisdiction := some j,
                          phase := .jurisdictionPending }
  | confirm {st : SessionState} :
      Reachable st → st.legalSystem.isSome →
      Reachable { st with jurisdictionConfirmed := true,
                          phase := .jurisdictionConfirmed }
  | run {st : SessionState} {ls : LegalSystem} (ex : Step → Bool)
      (out : Step → String × ℚ × String) (n : Nat) :
      Reachable st → st.jurisdictionConfirmed = true →
      st.legalSystem = some ls →
      Reachable (analyze_case_workflow ls ex out n st).1
  | agents {st : SessionState} {ls : LegalSystem} (r : AgentsResult) :
      Reachable st → st.jurisdictionConfirmed = true →
      st.legalSystem = some ls →
      Reachable (convert_agents_result_to_state st ls r)
  | edit {st : SessionState} {ls : LegalSystem} (s : Step) (v : String) :
      Reachable st → st.jurisdictionConfirmed = true →
      st.legalSystem = some ls → s ∈ stepsFor ls →
      Reachable (submit_user_edit st s v)
  | advance {st st2 : SessionState} (p : Phase) :
      Reachable st → advance_phase st p = some st2 → Reachable st2

/-- The jurisdiction-gating invariant: a session whose legal system is
not Common Law has empty result lists for the two Common-Law-only
steps. -/
def commonLawStepsAbsent (st : SessionState) : Prop :=
  ∀ ls : LegalSystem, st.legalSystem = some ls → ls ≠ .commonLaw →
    st.results .obiterDicta = [] ∧ st.results .dissentingOpinions = []

/-- No step holds a result before the jurisdiction is confirmed. -/
def emptyBeforeConfirmation (st : SessionState) : Prop :=
  st.jurisdictionConfirmed = false → ∀ s : Step, st.results s = []

/-- A confirmed Common-Law demo session, before any analysis step. -/
def demoCommonLawSession : SessionState :=
  { initialSession "Smith v Jones" "decision text" with
      legalSystem := some .commonLaw,
      preciseJurisdiction := some "United States",
      jurisdictionConfirmed := true,
      phase := .jurisdictionConfirmed }

/-- A confirmed Civil-Law demo session (the demo case of the app),
before any analysis step. -/
def demoCivilLawSession : SessionState :=
  { initialSession "BGE 132 III 285" "decision text" with
      legalSystem := some .civilLaw,
      preciseJurisdiction := some "Switzerland",
      jurisdictionConfirmed := true,
      phase := .jurisdictionConfirmed }

/-- A constant extraction output used to exercise the orchestrator on
the demo sessions. -/
def demoOutput : Step → String × ℚ × String := fun _ => ("v", 1, "r")

/-- The demo Civil-Law session after col_section completed: the snapshot
from which resumption is exercised. -/
def demoResumedSession : SessionState :=
  append_result demoCivilLawSession .colSection "the col section"
    (.ai 1) "extracted"

-- DEFS_INSERT_POINT

/-- The tuple of session-state fields other than the result lists. -/
def otherFields (st : SessionState) :
    String × String × Option LegalSystem × Option String × Bool ×
      Phase × Option String :=
  (st.caseCitation, st.fullText, st.legalSystem, st.preciseJurisdiction,
   st.jurisdictionConfirmed, st.phase, st.model)

theorem ordinalsOk_nil : ordinalsOk [] := by
  intro i; exact absurd i.2 (Nat.not_lt_zero i.1)

theorem ordinalsOk_append (l : List StepResult) (h : ordinalsOk l)
    (v : String) (c : Conf) (why : String) :
    ordinalsOk (l ++ [{ value := v, confidence := c, reasoning := why,
                        ordinal := l.length }]) := by
  intro i
  rcases Nat.lt_or_ge i.1 l.length with hlt | hge
  · have := h ⟨i.1, hlt⟩
    simpa [List.get_eq_getElem, List.getElem_append, hlt] using this
  · have hlen : i.1 < l.length + 1 := by
      simpa [List.length_append] using i.2
    have hi : i.1 = l.length := Nat.le_antisymm (Nat.lt_succ_iff.mp hlen) hge
    simp [List.get_eq_getElem, List.getElem_append, hi]

theorem append_result_frame (st : SessionState) (s : Step) (v : String)
    (c : Conf) (why : String) (t : Step) (ht : t ≠ s) :
    (append_result st s v c why).results t = st.results t := by
  simp [append_result, ht]

theorem append_result_self (st : SessionState) (s : Step) (v : String)
    (c : Conf) (why : String) :
    (append_result st s v c why).results s =
      st.results s ++ [{ value := v, confidence := c, reasoning := why,
                         ordinal := (st.results s).length }] := by
  simp [append_result]

theorem append_result_extends (st : SessionState) (s : Step) (v : String)
    (c : Conf) (why : String) (t : Step) :
    st.results t <+: (append_result st s v c why).results t := by
  by_cases h : t = s
  · subst h; rw [append_result_self]; exact List.prefix_append _ _
  · rw [append_result_frame st s v c why t h]

theorem completedB_mono {l l' : List StepResult} (h : l <+: l')
    (hc : l.isEmpty = false) : l'.isEmpty = false := by
  cases l with
  | nil => simp at hc
  | cons a t =>
      rcases h with ⟨u, hu⟩
      subst hu; simp

theorem execute_layer_cons (ex : Step → Bool)
    (out : Step → String × ℚ × String) (a : Step) (t : List Step)
    (st : SessionState) :
    execute_layer ex out (a :: t) st =
      execute_layer ex out t
        (if ex a then
          append_result st a (out a).1 (.ai (out a).2.1) (out a).2.2
         else st) := rfl

theorem execute_layer_frame (ex : Step → Bool)
    (out : Step → String × ℚ × String) (layer : List Step)
    (st : SessionState) (s : Step) (hs : s ∉ layer) :
    (execute_layer ex out layer st).results s = st.results s := by
  induction layer generalizing st with
  | nil => rfl
  | cons a t ih =>
      have hsa : s ≠ a := fun h => hs (h ▸ List.mem_cons_self a t)
      have hst : s ∉ t := fun h => hs (List.mem_cons_of_mem a h)
      show (execute_layer ex out t _).results s = _
      by_cases hx : ex a
      · rw [ih _ hst]
        simp [hx, append_result_frame _ _ _ _ _ _ hsa]
      · rw [ih _ hst]
        simp [hx]

theorem execute_layer_extends (ex : Step → Bool)
    (out : Step → String × ℚ × String) (layer : List Step)
    (st : SessionState) (s : Step) :
    st.results s <+: (execute_layer ex out layer st).results s := by
  induction layer generalizing st with
  | nil => exact List.prefix_refl _
  | cons a t ih =>
      show st.results s <+: (execute_layer ex out t _).results s
      by_cases hx : ex a
      · simp only [hx, if_pos]
        exact (append_result_extends st a _ _ _ s).trans (ih _)
      · simp only [hx, if_neg, Bool.false_eq_true, not_false_iff]
        exact ih _

theorem execute_layer_success (ex : Step → Bool)
    (out : Step → String × ℚ × String) (layer : List Step)
    (st : SessionState) (s : Step) (hs : s ∈ layer) (hx : ex s = true) :
    completedB (execute_layer ex out layer st) s = true := by
  induction layer generalizing st with
  | nil => cases hs
  | cons a t ih =>
      rcases List.mem_cons.mp hs with h | h
      · subst h
        rw [execute_layer_cons, if_pos hx]
        have hne : (append_result st s (out s).1 (.ai (out s).2.1)
            (out s).2.2).results s ≠ [] := by
          rw [append_result_self]; simp
        have hpre := execute_layer_extends ex out t
          (append_result st s (out s).1 (.ai (out s).2.1) (out s).2.2) s
        have hc : ((append_result st s (out s).1 (.ai (out s).2.1)
            (out s).2.2).results s).isEmpty = false := by
          simpa [List.isEmpty_iff] using hne
        simp only [completedB, Bool.not_eq_true', Bool.not_eq_false]
        exact completedB_mono hpre hc
      · exact ih _ h

theorem execute_layer_fields (ex : Step → Bool)
    (out : Step → String × ℚ × String) (layer : List Step)
    (st : SessionState) :
    otherFields (execute_layer ex out layer st) = otherFields st := by
  induction layer generalizing st with
  | nil => rfl
  | cons a t ih =>
      rw [execute_layer_cons]
      by_cases hx : ex a
      · rw [if_pos hx, ih]; rfl
      · rw [if_neg hx, ih]

theorem mem_allSteps (s : Step) : s ∈ allSteps := by
  cases s <;> simp [allSteps]

theorem mem_completedList (st : SessionState) (s : Step) :
    s ∈ completedList st ↔ completedB st s = true := by
  constructor
  · intro h; exact (List.mem_filter.mp h).2
  · intro h; exact List.mem_filter.mpr ⟨mem_allSteps s, h⟩

theorem mem_readySteps (ls : LegalSystem) (st : SessionState) (s : Step) :
    s ∈ readySteps ls st ↔
      s ∈ stepsFor ls ∧ completedB st s = false ∧
        depsSatisfied ls st s = true := by
  simp [readySteps, List.mem_filter, Bool.and_eq_true, Bool.not_eq_true',
    and_assoc]

theorem completedB_iff (st : SessionState) (s : Step) :
    completedB st s = true ↔ (st.results s).isEmpty = false := by
  simp [completedB]

theorem workflow_extends (ls : LegalSystem) (ex : Step → Bool)
    (out : Step → String × ℚ × String) (n : Nat) :
    ∀ (st : SessionState) (s : Step),
      st.results s <+: (analyze_case_workflow ls ex out n st).1.results s := by
  induction n with
  | zero => intro st s; exact List.prefix_refl _
  | succ n ih =>
      intro st s
      by_cases h1 : (readySteps ls st).isEmpty
      · simp [analyze_case_workflow, h1]
      · by_cases h2 : (readySteps ls st).all ex
        · simp only [analyze_case_workflow, h1, h2, Bool.false_eq_true,
            if_false, if_true]
          exact (execute_layer_extends ex out _ st s).trans (ih _ s)
        · simp only [analyze_case_workflow, h1, h2, Bool.false_eq_true,
            if_false]
          exact execute_layer_extends ex out _ st s

theorem workflow_completedB_mono (ls : LegalSystem) (ex : Step → Bool)
    (out : Step → String × ℚ × String) (n : Nat) (st : SessionState)
    (s : Step) (h : completedB st s = true) :
    completedB (analyze_case_workflow ls ex out n st).1 s = true := by
  rw [completedB_iff] at h ⊢
  exact completedB_mono (workflow_extends ls ex out n st s) h

theorem workflow_fields (ls : LegalSystem) (ex : Step → Bool)
    (out : Step → String × ℚ × String) (n : Nat) :
    ∀ st : SessionState,
      otherFields (analyze_case_workflow ls ex out n st).1 = otherFields st := by
  induction n with
  | zero => intro st; rfl
  | succ n ih =>
      intro st
      by_cases h1 : (readySteps ls st).isEmpty
      · simp [analyze_case_workflow, h1]
      · by_cases h2 : (readySteps ls st).all ex
        · simp only [analyze_case_workflow, h1, h2, Bool.false_eq_true,
            if_false, if_true]
          rw [ih _, execute_layer_fields]
        · simp only [analyze_case_workflow, h1, h2, Bool.false_eq_true,
            if_false]
          exact execute_layer_fields ex out _ st

theorem workflow_completed_frame (ls : LegalSystem) (ex : Step → Bool)
    (out : Step → String × ℚ × String) (n : Nat) :
    ∀ (st : SessionState) (s : Step), completedB st s = true →
      (analyze_case_workflow ls ex out n st).1.results s = st.results s := by
  induction n with
  | zero => intro st s _; rfl
  | succ n ih =>
      intro st s h
      have hnr : s ∉ readySteps ls st := by
        intro hmem
        have := (mem_readySteps ls st s).mp hmem
        rw [h] at this
        exact Bool.noConfusion this.2.1
      have hfr :
          (execute_layer ex out (readySteps ls st) st).results s =
            st.results s :=
        execute_layer_frame ex out _ st s hnr
      by_cases h1 : (readySteps ls st).isEmpty
      · simp [analyze_case_workflow, h1]
      · by_cases h2 : (readySteps ls st).all ex
        · simp only [analyze_case_workflow, h1, h2, Bool.false_eq_true,
            if_false, if_true]
          rw [ih _ s (by rw [completedB_iff, hfr, ← completedB_iff]
                         exact h), hfr]
        · simp only [analyze_case_workflow, h1, h2, Bool.false_eq_true,
            if_false]
          exact hfr

theorem workflow_not_listed_frame (ls : LegalSystem) (ex : Step → Bool)
    (out : Step → String × ℚ × String) (n : Nat) :
    ∀ (st : SessionState) (s : Step), s ∉ stepsFor ls →
      (analyze_case_workflow ls ex out n st).1.results s = st.results s := by
  induction n with
  | zero => intro st s _; rfl
  | succ n ih =>
      intro st s h
      have hnr : s ∉ readySteps ls st := fun hmem =>
        h ((mem_readySteps ls st s).mp hmem).1
      have hfr :
          (execute_layer ex out (readySteps ls st) st).results s =
            st.results s :=
        execute_layer_frame ex out _ st s hnr
      by_cases h1 : (readySteps ls st).isEmpty
      · simp [analyze_case_workflow, h1]
      · by_cases h2 : (readySteps ls st).all ex
        · simp only [analyze_case_workflow, h1, h2, Bool.false_eq_true,
            if_false, if_true]
          rw [ih _ s h, hfr]
        · simp only [analyze_case_workflow, h1, h2, Bool.false_eq_true,
            if_false]
          exact hfr

theorem workflow_trace_sound (ls : LegalSystem) (ex : Step → Bool)
    (out : Step → String × ℚ × String) (n : Nat) :
    ∀ (st : SessionState) entry,
      entry ∈ (analyze_case_workflow ls ex out n st).2 →
      ∀ s ∈ entry.2,
        s ∈ stepsFor ls ∧ s ∉ entry.1 ∧ ∀ d ∈ deps ls s, d ∈ entry.1 := by
  induction n with
  | zero => intro st entry h; simp [analyze_case_workflow] at h
  | succ n ih =>
      intro st entry h s hs
      have head :
          ∀ hm : s ∈ readySteps ls st,
            s ∈ stepsFor ls ∧ s ∉ completedList st ∧
              ∀ d ∈ deps ls s, d ∈ completedList st := by
        intro hm
        obtain ⟨hmem, hnc, hds⟩ := (mem_readySteps ls st s).mp hm
        refine ⟨hmem, ?_, ?_⟩
        · intro hc
          rw [(mem_completedList st s).mp hc] at hnc
          exact Bool.noConfusion hnc
        · intro d hd
          exact (mem_completedList st d).mpr
            (List.all_eq_true.mp hds d hd)
      by_cases h1 : (readySteps ls st).isEmpty
      · simp [analyze_case_workflow, h1] at h
      · by_cases h2 : (readySteps ls st).all ex
        · simp only [analyze_case_workflow, h1, h2, Bool.false_eq_true,
            if_false, if_true, List.mem_cons] at h
          rcases h with rfl | h
          · exact head hs
          · exact ih _ entry h s hs
        · simp only [analyze_case_workflow, h1, h2, Bool.false_eq_true,
            if_false, List.mem_singleton] at h
          subst h
          exact head hs

theorem workflow_no_redispatch (ls : LegalSystem) (ex : Step → Bool)
    (out : Step → String × ℚ × String) (n : Nat) :
    ∀ (st : SessionState) (s : Step), completedB st s = true →
      ∀ entry ∈ (analyze_case_workflow ls ex out n st).2, s ∉ entry.2 := by
  induction n with
  | zero => intro st s _ entry h; simp [analyze_case_workflow] at h
  | succ n ih =>
      intro st s hc entry h
      have hnr : s ∉ readySteps ls st := by
        intro hmem
        have := (mem_readySteps ls st s).mp hmem
        rw [hc] at this
        exact Bool.noConfusion this.2.1
      by_cases h1 : (readySteps ls st).isEmpty
      · simp [analyze_case_workflow, h1] at h
      · by_cases h2 : (readySteps ls st).all ex
        · simp only [analyze_case_workflow, h1, h2, Bool.false_eq_true,
            if_false, if_true, List.mem_cons] at h
          rcases h with rfl | h
          · exact hnr
          · have hc2 : completedB
                (execute_layer ex out (readySteps ls st) st) s = true := by
              rw [completedB_iff] at hc ⊢
              exact completedB_mono
                (execute_layer_extends ex out _ st s) hc
            exact ih _ s hc2 entry h
        · simp only [analyze_case_workflow, h1, h2, Bool.false_eq_true,
            if_false, List.mem_singleton] at h
          subst h
          exact hnr

theorem workflow_halt (ls : LegalSystem) (ex : Step → Bool)
    (out : Step → String × ℚ × String) (n : Nat) :
    ∀ (st : SessionState) entry,
      entry ∈ ((analyze_case_workflow ls ex out n st).2).dropLast →
        entry.2.all ex = true := by
  induction n with
  | zero => intro st entry h; simp [analyze_case_workflow] at h
  | succ n ih =>
      intro st entry h
      by_cases h1 : (readySteps ls st).isEmpty
      · simp [analyze_case_workflow, h1] at h
      · by_cases h2 : (readySteps ls st).all ex
        · simp only [analyze_case_workflow, h1, h2, Bool.false_eq_true,
            if_false, if_true] at h
          cases htr : (analyze_case_workflow ls ex out n
              (execute_layer ex out (readySteps ls st) st)).2 with
          | nil => rw [htr] at h; simp at h
          | cons e rest =>
              rw [htr, List.dropLast_cons_of_ne_nil (by simp)] at h
              rcases List.mem_cons.mp h with rfl | h
              · exact h2
              · exact ih _ entry (by rw [htr]; exact h)
        · simp only [analyze_case_workflow, h1, h2, Bool.false_eq_true,
            if_false, List.dropLast_single] at h
          simp at h

theorem workflow_success_completed (ls : LegalSystem) (ex : Step → Bool)
    (out : Step → String × ℚ × String) (n : Nat) :
    ∀ (st : SessionState) entry,
      entry ∈ (analyze_case_workflow ls ex out n st).2 →
      ∀ s ∈ entry.2, ex s = true →
        completedB (analyze_case_workflow ls ex out n st).1 s = true := by
  induction n with
  | zero => intro st entry h; simp [analyze_case_workflow] at h
  | succ n ih =>
      intro st entry h s hs hx
      by_cases h1 : (readySteps ls st).isEmpty
      · simp [analyze_case_workflow, h1] at h
      · by_cases h2 : (readySteps ls st).all ex
        · simp only [analyze_case_workflow, h1, h2, Bool.false_eq_true,
            if_false, if_true, List.mem_cons] at h ⊢
          rcases h with rfl | h
          · exact workflow_completedB_mono ls ex out n _ s
              (execute_layer_success ex out _ st s hs hx)
          · exact ih _ entry h s hs hx
        · simp only [analyze_case_workflow, h1, h2, Bool.false_eq_true,
            if_false, List.mem_singleton] at h ⊢
          subst h
          exact execute_layer_success ex out _ st s hs hx

theorem workflow_first_layer (ls : LegalSystem) (ex : Step → Bool)
    (out : Step → String × ℚ × String) (n : Nat) (st : SessionState)
    (h : (readySteps ls st).isEmpty = false) :
    ∃ rest, (analyze_case_workflow ls ex out (n + 1) st).2 =
      (completedList st, readySteps ls st) :: rest := by
  by_cases h2 : (readySteps ls st).all ex
  · exact ⟨(analyze_case_workflow ls ex out n
      (execute_layer ex out (readySteps ls st) st)).2,
      by simp [analyze_case_workflow, h, h2]⟩
  · exact ⟨[], by simp [analyze_case_workflow, h, h2]⟩

theorem readySteps_subset (ls : LegalSystem) (st : SessionState) :
    readySteps ls st ⊆ stepsFor ls := fun s hs =>
  ((mem_readySteps ls st s).mp hs).1

theorem commonLawOnly_not_listed (ls : LegalSystem) (h : ls ≠ .commonLaw) :
    Step.obiterDicta ∉ stepsFor ls ∧
      Step.dissentingOpinions ∉ stepsFor ls := by
  cases ls
  case commonLaw => exact absurd rfl h
  all_goals exact ⟨by decide, by decide⟩

theorem otherFields_eq_components {st2 st : SessionState}
    (h : otherFields st2 = otherFields st) :
    st2.caseCitation = st.caseCitation ∧ st2.fullText = st.fullText ∧
    st2.legalSystem = st.legalSystem ∧
    st2.preciseJurisdiction = st.preciseJurisdiction ∧
    st2.jurisdictionConfirmed = st.jurisdictionConfirmed ∧
    st2.phase = st.phase ∧ st2.model = st.model := by
  simpa [otherFields, Prod.ext_iff] using h

theorem workflow_failure_last (ls : LegalSystem) (ex : Step → Bool)
    (out : Step → String × ℚ × String) (n : Nat) :
    ∀ (st : SessionState) pre entry suf,
      (analyze_case_workflow ls ex out n st).2 = pre ++ entry :: suf →
      (∃ s ∈ entry.2, ex s = false) → suf = [] := by
  induction n with
  | zero =>
      intro st pre entry suf h _
      simp [analyze_case_workflow] at h
  | succ n ih =>
      intro st pre entry suf h hfail
      by_cases h1 : (readySteps ls st).isEmpty
      · simp [analyze_case_workflow, h1] at h
      · by_cases h2 : (readySteps ls st).all ex
        · simp only [analyze_case_workflow, h1, h2, Bool.false_eq_true,
            if_false, if_true] at h
          cases pre with
          | nil =>
              simp only [List.nil_append] at h
              obtain ⟨he, _⟩ := List.cons.inj h
              obtain ⟨s, hsmem, hsf⟩ := hfail
              rw [← he] at hsmem
              have := List.all_eq_true.mp h2 s hsmem
              rw [hsf] at this
              exact Bool.noConfusion this
          | cons p pre2 =>
              simp only [List.cons_append] at h
              obtain ⟨_, htail⟩ := List.cons.inj h
              exact ih _ pre2 entry suf htail hfail
        · simp only [analyze_case_workflow, h1, h2, Bool.false_eq_true,
            if_false] at h
          cases pre with
          | nil =>
              simp only [List.nil_append] at h
              exact (List.cons.inj h).2.symm
          | cons p pre2 =>
              simp only [List.cons_append] at h
              obtain ⟨_, htail⟩ := List.cons.inj h
              exact absurd htail.symm (by simp)

theorem reachable_invariant {st : SessionState} (h : Reachable st) :
    emptyBeforeConfirmation st ∧ commonLawStepsAbsent st := by
  induction h with
  | init citation text =>
      exact ⟨fun _ _ => rfl, fun _ _ _ => ⟨rfl, rfl⟩⟩
  | detect ls j hr hconf ih =>
      refine ⟨fun _ s => ih.1 hconf s, fun _ _ _ => ?_⟩
      exact ⟨ih.1 hconf .obiterDicta, ih.1 hconf .dissentingOpinions⟩
  | confirm hr hsome ih =>
      exact ⟨fun hc => Bool.noConfusion hc, ih.2⟩
  | run ex out n hr hconf hls ih =>
      rename_i st0 ls
      have hf := otherFields_eq_components
        (workflow_fields ls ex out n st0)
      constructor
      · intro hc
        rw [hf.2.2.2.2.1, hconf] at hc
        exact Bool.noConfusion hc
      · intro ls2 hls2 hne2
        rw [hf.2.2.1, hls] at hls2
        obtain rfl := Option.some.inj hls2
        have hnl := commonLawOnly_not_listed ls hne2
        constructor
        · rw [workflow_not_listed_frame ls ex out n st0 _ hnl.1]
          exact (ih.2 ls hls hne2).1
        · rw [workflow_not_listed_frame ls ex out n st0 _ hnl.2]
          exact (ih.2 ls hls hne2).2
  | agents r hr hconf hls ih =>
      rename_i st0 ls
      constructor
      · intro hc
        rw [show (convert_agents_result_to_state st0 ls
            r).jurisdictionConfirmed = st0.jurisdictionConfirmed from rfl,
          hconf] at hc
        exact Bool.noConfusion hc
      · intro ls2 hls2 hne2
        have : ls = ls2 := Option.some.inj hls2
        subst this
        constructor
        · show (if ls = LegalSystem.commonLaw then _ else []) = []
          rw [if_neg hne2]
        · show (if ls = LegalSystem.commonLaw then _ else []) = []
          rw [if_neg hne2]
  | edit s v hr hconf hls hmem ih =>
      rename_i st0 ls
      constructor
      · intro hc
        rw [show (submit_user_edit st0 s v).jurisdictionConfirmed =
            st0.jurisdictionConfirmed from rfl, hconf] at hc
        exact Bool.noConfusion hc
      · intro ls2 hls2 hne2
        rw [show (submit_user_edit st0 s v).legalSystem = st0.legalSystem
          from rfl, hls] at hls2
        obtain rfl := Option.some.inj hls2
        have hnl := commonLawOnly_not_listed ls hne2
        have hso : s ≠ Step.obiterDicta := fun he => hnl.1 (he ▸ hmem)
        have hsd : s ≠ Step.dissentingOpinions := fun he => hnl.2 (he ▸ hmem)
        constructor
        · rw [show (submit_user_edit st0 s v).results .obiterDicta =
              st0.results .obiterDicta from
            append_result_frame st0 s v .userEdited "" _ (fun he => hso he.symm)]
          exact (ih.2 ls hls hne2).1
        · rw [show (submit_user_edit st0 s v).results .dissentingOpinions =
              st0.results .dissentingOpinions from
            append_result_frame st0 s v .userEdited "" _ (fun he => hsd he.symm)]
          exact (ih.2 ls hls hne2).2
  | advance p hr hadv ih =>
      rename_i st0 st2
      have : st2 = { st0 with phase := p } := by
        by_cases hc : phaseIndex p = phaseIndex st0.phase + 1
        · simpa [advance_phase, hc] using hadv.symm
        · simp [advance_phase, hc] at hadv
      subst this
      exact ⟨fun hc s => ih.1 hc s, fun ls2 hls2 hne2 => ih.2 ls2 hls2 hne2⟩

/-- Claim C3: for every step name, appending a result only ever extends
that step's result list — the length grows by exactly one and the old
list survives as a prefix, never overwritten in place — and get_latest
returns the most recently appended result, which carries the highest
produced-at ordinal of the list, or the empty value when the list is
empty. -/
theorem C3_append_only_latest_wins (st : SessionState) (s : Step)
    (v : String) (c : Conf) (why : String)
    (hord : ordinalsOk (st.results s)) :
    ((append_result st s v c why).results s).length
        = (st.results s).length + 1 ∧
    st.results s <+: (append_result st s v c why).results s ∧
    get_latest (append_result st s v c why) s =
      { value := v, confidence := c, reasoning := why,
        ordinal := (st.results s).length } ∧
    (∀ r ∈ st.results s,
        r.ordinal < (get_latest (append_result st s v c why) s).ordinal) ∧
    ordinalsOk ((append_result st s v c why).results s) ∧
    (st.results s = [] → get_latest st s = emptyStepResult) := by
  have hself := append_result_self st s v c why
  refine ⟨?_, ?_, ?_, ?_, ?_, ?_⟩
  · rw [hself]; simp
  · exact append_result_extends st s v c why s
  · rw [get_latest, hself]; exact List.getLastD_concat _ _ _
  · intro r hr
    rw [get_latest, hself, List.getLastD_concat]
    obtain ⟨i, hi⟩ := List.mem_iff_get.mp hr
    have := hord i
    rw [hi] at this
    rw [this]
    exact i.2
  · rw [hself]; exact ordinalsOk_append _ hord v c why
  · intro he; rw [get_latest, he]; rfl

theorem C3_append_only_latest_wins_witness :
    ((append_result (initialSession "c" "t") .relevantFacts "facts"
        (.ai 1) "because").results .relevantFacts).length =
      ((initialSession "c" "t").results .relevantFacts).length + 1 ∧
    get_latest (append_result (initialSession "c" "t") .relevantFacts
        "facts" (.ai 1) "because") .relevantFacts =
      { value := "facts", confidence := .ai 1, reasoning := "because",
        ordinal := 0 } := by
  have h := C3_append_only_latest_wins (initialSession "c" "t")
    .relevantFacts "facts" (.ai 1) "because" ordinalsOk_nil
  exact ⟨h.1, h.2.2.1⟩

/-- Claim C5 (counterexample): the claim reads the confidence field as a
three-valued enumeration (low, medium, high), but the declared model
validates `confidence: float = Field(ge=0.0, le=1.0)`, which admits the
four pairwise distinct values 0, 1/2, 87/100 (the documented example
0.87) and 1 — no three values can cover them. -/
theorem C5_not_three_valued : ¬ confidenceIsThreeValuedEnum := by
  rintro ⟨lo, mid, hi, h⟩
  have hin : ∀ c : ℚ, 0 ≤ c → c ≤ 1 → confidenceInRange c = true := by
    intro c h0 h1
    simp [confidenceInRange, h0, h1]
  have hsub : ({0, 1/2, 87/100, 1} : Finset ℚ) ⊆ {lo, mid, hi} := by
    intro q hq
    simp only [Finset.mem_insert, Finset.mem_singleton] at hq ⊢
    rcases hq with rfl | rfl | rfl | rfl
    · exact h 0 (hin 0 (by norm_num) (by norm_num))
    · exact h (1/2) (hin (1/2) (by norm_num) (by norm_num))
    · exact h (87/100) (hin (87/100) (by norm_num) (by norm_num))
    · exact h 1 (hin 1 (by norm_num) (by norm_num))
  have hc4 : ({0, 1/2, 87/100, 1} : Finset ℚ).card = 4 := by
    norm_num [Finset.card_insert_of_not_mem, Finset.mem_insert]
  have hc3 : ({lo, mid, hi} : Finset ℚ).card ≤ 3 := by
    apply le_trans (Finset.card_insert_le _ _)
    have := Finset.card_insert_le mid ({hi} : Finset ℚ)
    simp only [Finset.card_singleton] at this
    omega
  have := Finset.card_le_card hsub
  omega

/-- Claim C5 (amended): the confidence field of every structured-output
model is a number validated to lie in the closed unit interval: the
Pydantic validation accepts a model exactly when 0 <= confidence <= 1,
and rejects it with a ValidationError otherwise. -/
theorem C5_confidence_unit_interval (m : OutputModel) :
    (validateOutputModel m = .ok m ↔
      0 ≤ m.confidence ∧ m.confidence ≤ 1) ∧
    (¬ (0 ≤ m.confidence ∧ m.confidence ≤ 1) →
      validateOutputModel m = .error "ValidationError") := by
  constructor
  · constructor
    · intro h
      by_contra hc
      have : confidenceInRange m.confidence = false := by
        simp only [confidenceInRange, Bool.and_eq_false_iff,
          decide_eq_false_iff_not]
        by_cases h0 : 0 ≤ m.confidence
        · exact Or.inr (fun h1 => hc ⟨h0, h1⟩)
        · exact Or.inl h0
      rw [validateOutputModel, this] at h
      simp at h
    · intro hc
      have : confidenceInRange m.confidence = true := by
        simp [confidenceInRange, hc.1, hc.2]
      rw [validateOutputModel, this]
      simp
  · intro hc
    have : confidenceInRange m.confidence = false := by
      simp only [confidenceInRange, Bool.and_eq_false_iff,
        decide_eq_false_iff_not]
      by_cases h0 : 0 ≤ m.confidence
      · exact Or.inr (fun h1 => hc ⟨h0, h1⟩)
      · exact Or.inl h0
    rw [validateOutputModel, this]
    simp

theorem C5_confidence_unit_interval_witness :
    validateOutputModel
      { primary_field := "The case involves...", confidence := 87/100,
        reasoning := "High confidence because..." } =
    .ok { primary_field := "The case involves...", confidence := 87/100,
          reasoning := "High confidence because..." } :=
  (C5_confidence_unit_interval _).1.mpr ⟨by norm_num, by norm_num⟩

/-- Claim C6: after StepsComplete, submitting a user edit for a step
appends exactly one new StepResult carrying the user-edited confidence
sentinel and an empty reasoning; the previously stored results — the
AI-produced ones included — survive unaltered as a prefix of the list,
and get_latest then returns the edited value. -/
theorem C6_user_edit_appends (st : SessionState) (s : Step) (v : String)
    (hphase : st.phase = .stepsComplete) :
    ((submit_user_edit st s v).results s).length
        = (st.results s).length + 1 ∧
    st.results s <+: (submit_user_edit st s v).results s ∧
    (∀ i : Nat, i < (st.results s).length →
      ((submit_user_edit st s v).results s).get? i
        = (st.results s).get? i) ∧
    get_latest (submit_user_edit st s v) s =
      { value := v, confidence := .userEdited, reasoning := "",
        ordinal := (st.results s).length } ∧
    (get_latest (submit_user_edit st s v) s).value = v := by
  have hself := append_result_self st s v .userEdited ""
  refine ⟨?_, ?_, ?_, ?_, ?_⟩
  · show ((append_result st s v .userEdited "").results s).length = _
    rw [hself]; simp
  · exact append_result_extends st s v .userEdited "" s
  · intro i hi
    show ((append_result st s v .userEdited "").results s).get? i = _
    rw [hself, List.get?_eq_getElem?, List.get?_eq_getElem?,
      List.getElem?_append, if_pos hi]
  · show get_latest (append_result st s v .userEdited "") s = _
    rw [get_latest, hself]
    exact List.getLastD_concat _ _ _
  · show (get_latest (append_result st s v .userEdited "") s).value = v
    rw [get_latest, hself, List.getLastD_concat]

theorem C6_user_edit_appends_witness :
    (({ initialSession "c" "t" with phase := .stepsComplete } :
        SessionState).phase = Phase.stepsComplete) ∧
    (get_latest
      (submit_user_edit
        { initialSession "c" "t" with phase := .stepsComplete }
        .relevantFacts "edited facts")
      .relevantFacts).value = "edited facts" := by
  refine ⟨rfl, ?_⟩
  exact (C6_user_edit_appends
    { initialSession "c" "t" with phase := .stepsComplete }
    .relevantFacts "edited facts" rfl).2.2.2.2

/-- Claim C7: every theme list accepted by classify_themes validates
against the closed taxonomy; an out-of-taxonomy first output triggers
exactly one corrective retry, and when the retry also fails validation
the step surfaces a SchemaValidationError rather than any coerced
value. -/
theorem C7_theme_taxonomy_validation (taxonomy : List String)
    (attempt : Nat → List String) :
    (∀ themes, classify_themes taxonomy attempt = .ok themes →
        themesValid taxonomy themes = true) ∧
    (themesValid taxonomy (attempt 0) = false →
      themesValid taxonomy (attempt 1) = true →
      classify_themes taxonomy attempt = .ok (attempt 1)) ∧
    (themesValid taxonomy (attempt 0) = false →
      themesValid taxonomy (attempt 1) = false →
      classify_themes taxonomy attempt
        = .error .schemaValidationError) := by
  refine ⟨?_, ?_, ?_⟩
  · intro themes h
    rw [classify_themes] at h
    by_cases h0 : themesValid taxonomy (attempt 0)
    · rw [if_pos h0] at h
      obtain rfl := Except.ok.inj h
      exact h0
    · rw [if_neg h0] at h
      by_cases h1 : themesValid taxonomy (attempt 1)
      · rw [if_pos h1] at h
        obtain rfl := Except.ok.inj h
        exact h1
      · rw [if_neg h1] at h
        exact absurd h (by simp)
  · intro h0 h1
    rw [classify_themes, if_neg (by simp [h0]), if_pos h1]
  · intro h0 h1
    rw [classify_themes, if_neg (by simp [h0]), if_neg (by simp [h1])]

theorem C7_theme_taxonomy_validation_witness :
    classify_themes ["Party Autonomy"]
      (fun _ => ["Choice of Forum"]) =
      .error .schemaValidationError := by
  have h := (C7_theme_taxonomy_validation ["Party Autonomy"]
    (fun _ => ["Choice of Forum"])).2.2
  exact h (by decide) (by decide)

/-- Claim C9: an extraction function is pure with respect to session
state — in this embedding its type takes only explicit parameters and no
session — and running one analysis step changes the session only by the
caller's own append of the returned result: every other step's list and
every non-result field of the session are unchanged, and the step's own
list is extended by exactly the returned value, confidence and
reasoning. -/
theorem C9_extraction_purity_frame (st : SessionState) (name : Step)
    (func : String → String → LegalSystem → Option String → String →
      String × ℚ × String) :
    (∀ t : Step, t ≠ name →
      (execute_analysis_step st name func).results t = st.results t) ∧
    otherFields (execute_analysis_step st name func) = otherFields st ∧
    (execute_analysis_step st name func).results name =
      st.results name ++
        [{ value := (func st.fullText (get_latest st .colSection).value
              (st.legalSystem.getD .civilLaw) st.preciseJurisdiction
              (st.model.getD "gpt-5-nano")).1,
           confidence := .ai (func st.fullText
              (get_latest st .colSection).value
              (st.legalSystem.getD .civilLaw) st.preciseJurisdiction
              (st.model.getD "gpt-5-nano")).2.1,
           reasoning := (func st.fullText (get_latest st .colSection).value
              (st.legalSystem.getD .civilLaw) st.preciseJurisdiction
              (st.model.getD "gpt-5-nano")).2.2,
           ordinal := (st.results name).length }] := by
  rcases hres : func st.fullText (get_latest st .colSection).value
    (st.legalSystem.getD .civilLaw) st.preciseJurisdiction
    (st.model.getD "gpt-5-nano") with ⟨v, c, why⟩
  have hdef : execute_analysis_step st name func
      = append_result st name v (.ai c) why := by
    rw [execute_analysis_step, hres]
  refine ⟨?_, ?_, ?_⟩
  · intro t ht
    rw [hdef]
    exact append_result_frame st name v (.ai c) why t ht
  · rw [hdef]; rfl
  · rw [hdef, append_result_self]

theorem C9_extraction_purity_frame_witness :
    (execute_analysis_step (initialSession "c" "t") .relevantFacts
      (fun _ _ _ _ _ => ("facts", 1, "why"))).results .colSection
      = (initialSession "c" "t").results .colSection := by
  have h := C9_extraction_purity_frame (initialSession "c" "t")
    .relevantFacts (fun _ _ _ _ _ => ("facts", 1, "why"))
  exact h.1 .colSection (by decide)

/-- Claim C10: a jurisdiction name present in the
jurisdiction-to-legal-system mapping is resolved directly from the
mapping — the LLM is not called (the used-LLM flag is false) — and
detection on such a name is fully deterministic: two runs with arbitrary,
even disagreeing, LLM oracles return the same result. -/
theorem C10_mapping_detection_deterministic
    (mapping : List (String × LegalSystem)) (name : String)
    (ls : LegalSystem) (llm llm2 : String → LegalSystem)
    (h : detect_legal_system_by_jurisdiction mapping name = some ls) :
    detect_legal_system_type mapping llm name = (ls, false) ∧
    detect_legal_system_type mapping llm name
      = detect_legal_system_type mapping llm2 name := by
  have h1 : detect_legal_system_type mapping llm name = (ls, false) := by
    rw [detect_legal_system_type, h]
  have h2 : detect_legal_system_type mapping llm2 name = (ls, false) := by
    rw [detect_legal_system_type, h]
  exact ⟨h1, h1.trans h2.symm⟩

theorem C10_mapping_detection_deterministic_witness :
    detect_legal_system_type [("Switzerland", LegalSystem.civilLaw)]
      (fun _ => LegalSystem.commonLaw) "Switzerland"
      = (LegalSystem.civilLaw, false) :=
  (C10_mapping_detection_deterministic
    [("Switzerland", LegalSystem.civilLaw)] "Switzerland"
    LegalSystem.civilLaw (fun _ => LegalSystem.commonLaw)
    (fun _ => LegalSystem.india) (by decide)).1

/-- Claim C1: in a Common-Law session, obiter_dicta and
dissenting_opinions each have courts_position as their sole prerequisite
in the dependency table, and along any orchestrator run neither appears
in a dispatched layer before courts_position holds at least one
StepResult (each trace entry pairs the steps completed at dispatch time
with the dispatched layer), while abstract is dispatched only after both
Common-Law-only steps have completed. -/
theorem C1_common_law_sequencing :
    deps .commonLaw .obiterDicta = [.courtsPosition] ∧
    deps .commonLaw .dissentingOpinions = [.courtsPosition] ∧
    ∀ (ex : Step → Bool) (out : Step → String × ℚ × String) (n : Nat)
      (st : SessionState) (entry : List Step × List Step),
      entry ∈ (analyze_case_workflow .commonLaw ex out n st).2 →
        (Step.obiterDicta ∈ entry.2 → Step.courtsPosition ∈ entry.1) ∧
        (Step.dissentingOpinions ∈ entry.2 →
          Step.courtsPosition ∈ entry.1) ∧
        (Step.abstract ∈ entry.2 →
          Step.obiterDicta ∈ entry.1 ∧
            Step.dissentingOpinions ∈ entry.1) := by
  refine ⟨rfl, rfl, ?_⟩
  intro ex out n st entry hentry
  refine ⟨?_, ?_, ?_⟩
  · intro hs
    exact (workflow_trace_sound .commonLaw ex out n st entry hentry _
      hs).2.2 _ (by decide)
  · intro hs
    exact (workflow_trace_sound .commonLaw ex out n st entry hentry _
      hs).2.2 _ (by decide)
  · intro hs
    have h := (workflow_trace_sound .commonLaw ex out n st entry hentry _
      hs).2.2
    exact ⟨h _ (by decide), h _ (by decide)⟩

theorem C1_common_law_sequencing_witness :
    Step.courtsPosition ∈
      ([.colSection, .themeClassification, .relevantFacts,
        .pilProvisions, .colIssue, .courtsPosition] : List Step) ∧
    Step.obiterDicta ∈
      ([.colSection, .themeClassification, .relevantFacts,
        .pilProvisions, .colIssue, .courtsPosition, .obiterDicta,
        .dissentingOpinions] : List Step) ∧
    Step.dissentingOpinions ∈
      ([.colSection, .themeClassification, .relevantFacts,
        .pilProvisions, .colIssue, .courtsPosition, .obiterDicta,
        .dissentingOpinions] : List Step) := by
  have h4 := (C1_common_law_sequencing.2.2 (fun _ => true) demoOutput 9
    demoCommonLawSession
    ([.colSection, .themeClassification, .relevantFacts, .pilProvisions,
      .colIssue, .courtsPosition],
     [.obiterDicta, .dissentingOpinions]) (by decide)).1
  have h5 := (C1_common_law_sequencing.2.2 (fun _ => true) demoOutput 9
    demoCommonLawSession
    ([.colSection, .themeClassification, .relevantFacts, .pilProvisions,
      .colIssue, .courtsPosition, .obiterDicta, .dissentingOpinions],
     [.abstract]) (by decide)).2.2
  exact ⟨h4 (by decide), (h5 (by decide)).1, (h5 (by decide)).2⟩

/-- Claim C2: in every reachable session state whose confirmed legal
system is not Common Law, the result lists of obiter_dicta and
dissenting_opinions are empty. -/
theorem C2_jurisdiction_gating (st : SessionState) (h : Reachable st)
    (ls : LegalSystem) (hls : st.legalSystem = some ls)
    (hne : ls ≠ .commonLaw) :
    st.results .obiterDicta = [] ∧
      st.results .dissentingOpinions = [] :=
  (reachable_invariant h).2 ls hls hne

theorem C2_jurisdiction_gating_witness :
    ({ initialSession "BGE 132 III 285" "decision text" with
        legalSystem := some LegalSystem.civilLaw,
        preciseJurisdiction := some "Switzerland",
        phase := Phase.jurisdictionPending } : SessionState).results
        Step.obiterDicta = [] ∧
    ({ initialSession "BGE 132 III 285" "decision text" with
        legalSystem := some LegalSystem.civilLaw,
        preciseJurisdiction := some "Switzerland",
        phase := Phase.jurisdictionPending } : SessionState).results
        Step.dissentingOpinions = [] :=
  C2_jurisdiction_gating _
    (Reachable.detect LegalSystem.civilLaw "Switzerland"
      (Reachable.init "BGE 132 III 285" "decision text") rfl)
    LegalSystem.civilLaw rfl (by decide)

/-- Claim C4: layer atomicity — a dispatched layer containing a failed
step is the final dispatched layer of the run, so no step of any
subsequent layer is ever dispatched; already-appended results are
retained (every prior list survives as a prefix of the final one), and
each successful step of every dispatched layer, the failing layer
included, holds a result in the final state, which remains inspectable
and resumable. -/
theorem C4_layer_atomicity (ls : LegalSystem) (ex : Step → Bool)
    (out : Step → String × ℚ × String) (n : Nat) (st : SessionState) :
    (∀ pre entry suf,
       (analyze_case_workflow ls ex out n st).2 = pre ++ entry :: suf →
       (∃ s ∈ entry.2, ex s = false) → suf = []) ∧
    (∀ s : Step,
       st.results s <+:
         (analyze_case_workflow ls ex out n st).1.results s) ∧
    (∀ entry ∈ (analyze_case_workflow ls ex out n st).2, ∀ s ∈ entry.2,
       ex s = true →
       completedB (analyze_case_workflow ls ex out n st).1 s = true) :=
  ⟨workflow_failure_last ls ex out n st,
   workflow_extends ls ex out n st,
   workflow_success_completed ls ex out n st⟩

theorem C4_layer_atomicity_witness :
    (([] : List (List Step × List Step)) = [] ∧
      completedB (analyze_case_workflow .civilLaw
        (fun s => !(s == Step.themeClassification)) demoOutput 9
        demoCivilLawSession).1 .relevantFacts = true) := by
  constructor
  · exact (C4_layer_atomicity .civilLaw
      (fun s => !(s == Step.themeClassification)) demoOutput 9
      demoCivilLawSession).1
      [([], [.colSection])]
      ([.colSection],
       [.themeClassification, .relevantFacts, .pilProvisions, .colIssue])
      [] (by decide) ⟨.themeClassification, by decide, by decide⟩
  · exact (C4_layer_atomicity .civilLaw
      (fun s => !(s == Step.themeClassification)) demoOutput 9
      demoCivilLawSession).2.2
      ([.colSection],
       [.themeClassification, .relevantFacts, .pilProvisions, .colIssue])
      (by decide) .relevantFacts (by decide) (by decide)

/-- Claim C8: resuming from a persisted snapshot is idempotent on
completed work — re-invoking the orchestrator on the restored state
leaves the result list of every already-completed step untouched, never
dispatches such a step again, and its first dispatched layer is exactly
the set of steps with no result whose prerequisites are all
satisfied. -/
theorem C8_idempotent_resume (ls : LegalSystem) (ex : Step → Bool)
    (out : Step → String × ℚ × String) (n : Nat) (st : SessionState) :
    (∀ s : Step, completedB st s = true →
       (analyze_case_workflow ls ex out n
         (restore_state_from_storage (some st))).1.results s
         = st.results s) ∧
    (∀ s : Step, completedB st s = true →
       ∀ entry ∈ (analyze_case_workflow ls ex out n
         (restore_state_from_storage (some st))).2, s ∉ entry.2) ∧
    (readySteps ls st ≠ [] →
       ∃ rest,
         (analyze_case_workflow ls ex out (n + 1)
           (restore_state_from_storage (some st))).2 =
         (completedList st,
          (stepsFor ls).filter
            (fun s => !completedB st s && depsSatisfied ls st s))
           :: rest) := by
  have hre : restore_state_from_storage (some st) = st := rfl
  rw [hre]
  refine ⟨workflow_completed_frame ls ex out n st,
          fun s hc => workflow_no_redispatch ls ex out n st s hc, ?_⟩
  intro hne
  have he : (readySteps ls st).isEmpty = false := by
    simpa [List.isEmpty_iff] using hne
  exact workflow_first_layer ls ex out n st he

theorem C8_idempotent_resume_witness :
    (analyze_case_workflow .civilLaw (fun _ => true) demoOutput 9
      (restore_state_from_storage (some demoResumedSession))).1.results
        .colSection = demoResumedSession.results .colSection ∧
    ∃ rest,
      (analyze_case_workflow .civilLaw (fun _ => true) demoOutput 9
        (restore_state_from_storage (some demoResumedSession))).2 =
      (completedList demoResumedSession,
       (stepsFor .civilLaw).filter
         (fun s => !completedB demoResumedSession s &&
           depsSatisfied .civilLaw demoResumedSession s)) :: rest := by
  constructor
  · exact (C8_idempotent_resume .civilLaw (fun _ => true) demoOutput 9
      demoResumedSession).1 .colSection (by decide)
  · exact (C8_idempotent_resume .civilLaw (fun _ => true) demoOutput 8
      demoResumedSession).2.2 (by decide)

end ColdCase
